import Mathlib

/-
Verification of the alpha-beta search core of the Laser chess engine
(src/search.cpp).  The board, move-encoding, hash-table and move-ordering
collaborators (board.cpp, common.h, hash.cpp, searchspace.h) are not part of
the sources under verification; they are modelled abstractly: every board
query the search performs is a field of the `Game` structure below, so each
theorem quantifies over all possible behaviours of those collaborators.

The C++ search mutates global state (searchParams, the transposition table,
the stop flag); this is modelled by threading an explicit `SState` value.
Recursion is bounded by an explicit fuel argument: every search function
returns `none` when the fuel runs out, and each recursive call consumes one
unit, so the functions are structurally recursive and computable.  Statistics
counters (`SearchStatistics`) only feed the stderr report and are not
modelled; the principal-variation buffers (`SearchPV`) only record the move
sequence for printing and do not influence any returned score, so they are
not modelled either; the history table only influences the (abstract) move
ordering produced by `SearchSpace`, which is itself a field of `Game`, so it
is not tracked in the state.
-/

namespace LaserSearch

/-- Modelled from the spec: the score and depth constants live in common.h,
which is not among the sources.  The spec only fixes their relations:
INFTY exceeds MATE_SCORE, mate scores have magnitude above
MATE_SCORE - MAX_DEPTH, and the piece values are positive. -/
def MATE_SCORE : Int := 32700

/-- Modelled from the spec: sentinel score strictly above MATE_SCORE. -/
def INFTY : Int := 32767

/-- Modelled from the spec: hard recursion bound from common.h. -/
def MAX_DEPTH : Int := 127

/-- Modelled from the spec: pawn value used to size the null-move reduction. -/
def PAWN_VALUE : Int := 100

/-- Modelled from the spec: knight value used in the futility margins. -/
def KNIGHT_VALUE : Int := 391

/-- Modelled from the spec: queen value used in the pruning margins. -/
def QUEEN_VALUE : Int := 1380

/-- Modelled from the spec: maximum plausible positional swing, used to size
the futility, reverse-futility and delta-pruning margins. -/
def MAX_POS_SCORE : Int := 120

/-- Moves are small integers (uint16 in common.h); the encoding itself is
abstract here, with the move-decoding helpers as fields of `Game`. -/
abbrev Move := Nat

/-- Sentinel move denoting absence (value 0 in common.h). -/
def NULL_MOVE : Move := 0

/-- White is colour 0; the opponent of `color` is `color ^^^ 1`. -/
def WHITE : Nat := 0

/-- Node classes stored in a transposition-table entry. -/
inductive NodeType where
  | PV_NODE
  | CUT_NODE
  | ALL_NODE
deriving DecidableEq

/-- Transposition-table entry as consumed by search.cpp: best move, score,
depth searched, node type, and the root move number at insertion (age). -/
structure HashEntry where
  m : Move
  score : Int
  depth : Int
  nodeType : NodeType
  age : Nat
deriving DecidableEq

/-- Written from the spec's words, for comparison with the code: clamp x into
the fail-hard window, i.e. beta if x >= beta, x if alpha < x < beta, else
alpha. -/
def clampSpec (x alpha beta : Int) : Int :=
  if x ≥ beta then beta
  else if x > alpha then x
  else alpha

/-- Killer-slot update from search.cpp lines 422-426: on a quiet beta cutoff
the new killer is shifted in only when it differs from slot 0. -/
def killerUpdate (m : Move) (ks : Move × Move) : Move × Move :=
  if m ≠ ks.1 then (m, ks.1) else ks

/-- FUTILITY_MARGIN array from search.cpp lines 44-48, as a function of the
depth (only indices 0..3 are ever used, under the guard depth <= 3). -/
def FUTILITY_MARGIN (depth : Int) : Int :=
  if depth = 1 then MAX_POS_SCORE
  else if depth = 2 then MAX_POS_SCORE + KNIGHT_VALUE
  else if depth = 3 then MAX_POS_SCORE + QUEEN_VALUE
  else 0

/-- REVERSE_FUTILITY_MARGIN array from search.cpp lines 50-53 (only indices
0..2 are ever used, under the guard depth <= 2). -/
def REVERSE_FUTILITY_MARGIN (depth : Int) : Int :=
  if depth = 1 then MAX_POS_SCORE
  else if depth = 2 then MAX_POS_SCORE + 2 * PAWN_VALUE
  else 0

/-- Null-move reduction from search.cpp lines 294-303: base 4 / 3 / 2 by
depth bracket, plus the static-eval surplus in pawns, clamped so that the
child depth depth - 1 - R does not descend directly into quiescence.
C++ integer division truncates toward zero, hence Int.tdiv. -/
def nullMoveReduction (depth staticEval beta : Int) : Int :=
  let reduction : Int := if depth ≥ 11 then 4 else if depth ≥ 6 then 3 else 2
  min (depth - 2) (reduction + Int.tdiv (staticEval - beta) PAWN_VALUE)

/-- Modelled from the spec: SearchSpace::nodeIsReducible (searchspace.h is
not among the sources) returns true when the node is not a PV node and not
in check. -/
def nodeIsReducible (isPVNode isInCheck : Bool) : Bool :=
  !isPVNode && !isInCheck

/-- Index-of-maximum scan of nextMove (search.cpp lines 752-760): walk the
remaining scores, keeping the first index whose score is strictly greater
than the best seen so far.  `l` is the list of scores from position `i`
onward, `bi`/`bs` the best index and score so far. -/
def argmaxFrom (l : List Int) (bi : Nat) (bs : Int) (i : Nat) : Nat :=
  match l with
  | [] => bi
  | x :: rest =>
    if x > bs then argmaxFrom rest i x (i + 1)
    else argmaxFrom rest bi bs (i + 1)

/-- MoveList::swap / ScoreList::swap: exchange the elements at positions
i and j (board.cpp is not among the sources; the semantics of swap on an
index-addressed list is forced). -/
def listSwap {α : Type} (l : List α) (d : α) (i j : Nat) : List α :=
  (l.set i (l.getD j d)).set j (l.getD i d)

/-- nextMove from search.cpp lines 749-765: partial selection sort.  If
index is past the end return NULL_MOVE; otherwise swap the highest-scored
remaining move (and its score) into position `index` and return it.  The
C++ mutates the two parallel lists in place; here the updated lists are
returned alongside the chosen move. -/
def nextMove (moves : List Move) (scores : List Int) (index : Nat) :
    Move × List Move × List Int :=
  if index ≥ moves.length then (NULL_MOVE, moves, scores)
  else
    let bestIndex := argmaxFrom (scores.drop (index + 1)) index
      (scores.getD index 0) (index + 1)
    let moves1 := listSwap moves NULL_MOVE bestIndex index
    let scores1 := listSwap scores 0 bestIndex index
    (moves1.getD index NULL_MOVE, moves1, scores1)

/-- scoreMate from search.cpp lines 532-547: mate or stalemate score,
clamped into the fail-hard window.  `depth` is unused in the C++ body and
kept for signature fidelity. -/
def scoreMate (isInCheck : Bool) (depth : Int) (alpha beta : Int) (ply : Nat) : Int :=
  let score : Int := if isInCheck then -MATE_SCORE + (ply : Int) else 0
  if score ≥ beta then beta
  else if score > alpha then score
  else alpha

/-- Abstract interface to the collaborators of search.cpp.  Board queries
(board.cpp), move-encoding helpers (common.h) and the ordered move stream of
SearchSpace (searchspace.h/.cpp) are not among the sources, so each is a
field; the theorems hold for every behaviour of these fields.  `P` is the
position type; a `Board` value after `staticCopy` + a successful
`doPseudoLegalMove` is just another `P`, returned in an `Option` (none for
an illegal pseudo-legal move, mirroring the bool result). -/
structure Game (P : Type) where
  isDraw : P → Bool
  getPlayerToMove : P → Nat
  isInCheck : P → Nat → Bool
  /-- Static evaluation from white's perspective. -/
  evaluate : P → Int
  /-- Material-only part of the evaluation, white's perspective. -/
  evaluateMaterial : P → Int
  /-- Positional part of the evaluation, white's perspective. -/
  evaluatePositional : P → Int
  /-- Truthiness of the non-pawn-material bitboard of the given side. -/
  getNonPawnMaterial : P → Nat → Bool
  doNullMove : P → P
  /-- staticCopy followed by doPseudoLegalMove; none when the move is
  illegal (the bool result of the C++ call is false). -/
  doPseudoLegalMove : P → Move → Nat → Option P
  /-- staticCopy followed by doHashMove; none on a Type-1 hash error. -/
  doHashMove : P → Move → Nat → Option P
  isCheckMove : P → Move → Nat → Bool
  getPieceOnSquare : P → Nat → Nat → Nat
  valueOfPiece : Nat → Int
  getMVVLVAScore : P → Nat → Move → Int
  getExchangeScore : P → Nat → Move → Int
  getSEE : P → Nat → Nat → Int
  getPseudoLegalCaptures : P → Nat → Bool → List Move
  getPseudoLegalPromotions : P → Nat → List Move
  getPseudoLegalChecks : P → Nat → List Move
  getPseudoLegalCheckEscapes : P → Nat → List Move
  /-- Move-encoding helper from common.h. -/
  isCapture : Move → Bool
  /-- Move-encoding helper from common.h. -/
  isPromotion : Move → Bool
  /-- Move-encoding helper from common.h. -/
  getEndSq : Move → Nat
  /-- Modelled from the spec: the move stream SearchSpace yields for a
  position after generateMoves(hashed), in order (searchspace.cpp is not
  among the sources).  The history-table state that influences this
  ordering is absorbed into the abstraction. -/
  generateMoves : P → Move → List Move
  /-- Late-move-reduction amount from search.cpp lines 390-391.  The C++
  expression is floating point ((depth - 3.0) / 4.0 + movesSearched / 9.5,
  truncated to int); real arithmetic is not shallowly embeddable, so the
  amount is an oracle of depth and movesSearched.  PVS clamps it with
  min (depth - 2, amount) exactly as the source does. -/
  lmrAmount : Int → Nat → Int
  /-- Wall-clock oracle: result of the comparison
  timeSoFar * ONE_SECOND > timeLimit at the n-th poll of the clock. -/
  timeout : Nat → Bool

/-- Mutable search state threaded through the search: the relevant fields of
the global searchParams (ply, nullMoveCount, killers, rootMoveNumber), the
transposition table, the stop flag, and a poll counter feeding the clock
oracle.  `nmcHigh` is a ghost field recording the highest value
nullMoveCount ever took, so that the path invariant nullMoveCount <= 2 can
be stated about executions. -/
structure SState (P : Type) where
  ply : Nat
  nullMoveCount : Nat
  nmcHigh : Nat
  killers : Nat → Move × Move
  tt : P → Option HashEntry
  isStop : Bool
  clock : Nat
  rootMoveNumber : Nat

/-- Modelled from the spec: Hash::add (hash.cpp is not among the sources)
stores the entry under the position key; the bucket replacement policy is
irrelevant to the claims, so the table is a map from positions to entries. -/
def ttAdd {P : Type} [DecidableEq P] (st : SState P) (b : P) (depth : Int)
    (m : Move) (score : Int) (nt : NodeType) : SState P :=
  { st with tt := fun p =>
      if p = b then some ⟨m, score, depth, nt, st.rootMoveNumber⟩ else st.tt p }

/-- Killer-table update at the current ply (search.cpp lines 422-426). -/
def recordKiller {P : Type} (st : SState P) (m : Move) : SState P :=
  { st with killers := fun p =>
      if p = st.ply then killerUpdate m (st.killers p) else st.killers p }

/-- searchParams.ply++ around a recursive call. -/
def incPly {P : Type} (st : SState P) : SState P :=
  { st with ply := st.ply + 1 }

/-- searchParams.ply-- after a recursive call. -/
def decPly {P : Type} (st : SState P) : SState P :=
  { st with ply := st.ply - 1 }

/-- searchParams.nullMoveCount++ before the null-move excursion; the ghost
high-water mark follows the counter. -/
def incNull {P : Type} (st : SState P) : SState P :=
  { st with nullMoveCount := st.nullMoveCount + 1,
            nmcHigh := max st.nmcHigh (st.nullMoveCount + 1) }

/-- searchParams.nullMoveCount-- on every exit path of the excursion. -/
def decNull {P : Type} (st : SState P) : SState P :=
  { st with nullMoveCount := st.nullMoveCount - 1 }

/-- Outcome of a quiescence move loop: an early return out of the whole
frame, or fall-through with the final alpha. -/
inductive QLoopOut where
  | ret (v : Int)
  | fall (alpha : Int)

/-- Outcome of the check-evasion loop, which also reports the last searched
score so that checkQuiescence can detect checkmate (score still -INFTY). -/
inductive EscLoopOut where
  | ret (v : Int)
  | fall (alpha score : Int)

/-- Outcome of the PVS move loop: an early return out of the frame, or
fall-through with the final alpha, the last score, and the best move. -/
inductive PvsLoopOut where
  | ret (v : Int)
  | fall (alpha score : Int) (toHash : Move)

/-- Fail-hard contract of a quiescence move loop relative to the window it
was entered with: an early return equals beta, a fall-through alpha stays in
[alpha, beta). -/
def qOutOK (alpha beta : Int) : QLoopOut → Prop
  | QLoopOut.ret v => v = beta
  | QLoopOut.fall a => alpha ≤ a ∧ a < beta

/-- Fail-hard contract of the check-evasion loop. -/
def escOutOK (alpha beta : Int) : EscLoopOut → Prop
  | EscLoopOut.ret v => v = beta
  | EscLoopOut.fall a _ => alpha ≤ a ∧ a < beta

/-- Contract of the PVS move loop: an early return is a beta cutoff that has
just stored a CUT-node entry with score exactly beta for this position; a
fall-through alpha stays in [alpha, beta). -/
def pvsOutOK {P : Type} (alpha beta : Int) (st1 : SState P) (b : P) (depth : Int) :
    PvsLoopOut → Prop
  | PvsLoopOut.ret v => v = beta ∧
      ∃ m1, st1.tt b = some ⟨m1, beta, depth, NodeType.CUT_NODE, st1.rootMoveNumber⟩
  | PvsLoopOut.fall a _ _ => alpha ≤ a ∧ a < beta

mutual

/-- quiescence from search.cpp lines 556-683: delegate to checkQuiescence
when in check; stand pat with a material-only evaluation, delta-prune, then
complete the evaluation; search captures in MVV/LVA order, then promotions,
then (at the first quiescence ply only) checking moves. -/
def quiescence {P : Type} (g : Game P) (fuel : Nat) (b : P) (plies alpha beta : Int)
    (ply : Nat) : Option Int :=
  match fuel with
  | 0 => none
  | Nat.succ fuel =>
    let color := g.getPlayerToMove b
    if g.isInCheck b color then checkQuiescence g fuel b plies alpha beta ply
    else
      let standPat0 := if color = WHITE then g.evaluateMaterial b else -(g.evaluateMaterial b)
      if standPat0 ≥ beta + MAX_POS_SCORE then some beta
      else if standPat0 < alpha - 2 * MAX_POS_SCORE - QUEEN_VALUE then some alpha
      else
        let standPat := standPat0 +
          (if color = WHITE then g.evaluatePositional b else -(g.evaluatePositional b))
        let alpha1 := if alpha < standPat then standPat else alpha
        if standPat ≥ beta then some beta
        else if standPat < alpha1 - MAX_POS_SCORE - QUEEN_VALUE then some alpha1
        else
          let legalCaptures := g.getPseudoLegalCaptures b color false
          let scores := legalCaptures.map (g.getMVVLVAScore b color)
          match qcapLoop g fuel b color plies standPat legalCaptures scores 0 alpha1 beta ply with
          | none => none
          | some (QLoopOut.ret v) => some v
          | some (QLoopOut.fall alpha2) =>
            match qpromLoop g fuel b color plies (g.getPseudoLegalPromotions b color) alpha2 beta ply with
            | none => none
            | some (QLoopOut.ret v) => some v
            | some (QLoopOut.fall alpha3) =>
              if plies ≤ 0 then
                match qchkLoop g fuel b color plies (g.getPseudoLegalChecks b color) alpha3 beta ply with
                | none => none
                | some (QLoopOut.ret v) => some v
                | some (QLoopOut.fall alpha4) => some alpha4
              else some alpha3
termination_by structural fuel

/-- Capture loop of quiescence (search.cpp lines 590-619): moves are drawn
with nextMove (partial selection sort over the MVV/LVA scores); each is
delta-pruned, SEE-pruned, or searched with a negamax recursion; a score of
beta or more cuts the whole frame off at beta. -/
def qcapLoop {P : Type} (g : Game P) (fuel : Nat) (b : P) (color : Nat)
    (plies standPat : Int) (moves : List Move) (scores : List Int) (i : Nat)
    (alpha beta : Int) (ply : Nat) : Option QLoopOut :=
  match fuel with
  | 0 => none
  | Nat.succ fuel =>
    match nextMove moves scores i with
    | (m, moves1, scores1) =>
      if m = NULL_MOVE then some (QLoopOut.fall alpha)
      else if standPat + g.valueOfPiece (g.getPieceOnSquare b (color ^^^ 1) (g.getEndSq m))
              < alpha - MAX_POS_SCORE then
        qcapLoop g fuel b color plies standPat moves1 scores1 (i + 1) alpha beta ply
      else if g.getExchangeScore b color m < 0 ∧
              g.getSEE b color (g.getEndSq m) < -MAX_POS_SCORE then
        qcapLoop g fuel b color plies standPat moves1 scores1 (i + 1) alpha beta ply
      else
        match g.doPseudoLegalMove b m color with
        | none => qcapLoop g fuel b color plies standPat moves1 scores1 (i + 1) alpha beta ply
        | some copy =>
          match quiescence g fuel copy (plies + 1) (-beta) (-alpha) ply with
          | none => none
          | some v =>
            let score := -v
            if score ≥ beta then some (QLoopOut.ret beta)
            else if score > alpha then
              qcapLoop g fuel b color plies standPat moves1 scores1 (i + 1) score beta ply
            else
              qcapLoop g fuel b color plies standPat moves1 scores1 (i + 1) alpha beta ply
termination_by structural fuel

/-- Promotion loop of quiescence (search.cpp lines 621-646): plain iteration,
SEE-pruned, searched with a negamax recursion. -/
def qpromLoop {P : Type} (g : Game P) (fuel : Nat) (b : P) (color : Nat)
    (plies : Int) (moves : List Move) (alpha beta : Int) (ply : Nat) : Option QLoopOut :=
  match fuel with
  | 0 => none
  | Nat.succ fuel =>
    match moves with
    | [] => some (QLoopOut.fall alpha)
    | m :: rest =>
      if g.getSEE b color (g.getEndSq m) < 0 then
        qpromLoop g fuel b color plies rest alpha beta ply
      else
        match g.doPseudoLegalMove b m color with
        | none => qpromLoop g fuel b color plies rest alpha beta ply
        | some copy =>
          match quiescence g fuel copy (plies + 1) (-beta) (-alpha) ply with
          | none => none
          | some v =>
            let score := -v
            if score ≥ beta then some (QLoopOut.ret beta)
            else if score > alpha then qpromLoop g fuel b color plies rest score beta ply
            else qpromLoop g fuel b color plies rest alpha beta ply
termination_by structural fuel

/-- Checking-move loop of quiescence (search.cpp lines 649-674): plain
iteration, searched through checkQuiescence. -/
def qchkLoop {P : Type} (g : Game P) (fuel : Nat) (b : P) (color : Nat)
    (plies : Int) (moves : List Move) (alpha beta : Int) (ply : Nat) : Option QLoopOut :=
  match fuel with
  | 0 => none
  | Nat.succ fuel =>
    match moves with
    | [] => some (QLoopOut.fall alpha)
    | m :: rest =>
      match g.doPseudoLegalMove b m color with
      | none => qchkLoop g fuel b color plies rest alpha beta ply
      | some copy =>
        match checkQuiescence g fuel copy (plies + 1) (-beta) (-alpha) ply with
        | none => none
        | some v =>
          let score := -v
          if score ≥ beta then some (QLoopOut.ret beta)
          else if score > alpha then qchkLoop g fuel b color plies rest score beta ply
          else qchkLoop g fuel b color plies rest alpha beta ply
termination_by structural fuel

/-- checkQuiescence from search.cpp lines 689-730: search all check
evasions; if none was legal the position is checkmate and the mate score
-MATE_SCORE + ply + plies is clamped into the window. -/
def checkQuiescence {P : Type} (g : Game P) (fuel : Nat) (b : P)
    (plies alpha beta : Int) (ply : Nat) : Option Int :=
  match fuel with
  | 0 => none
  | Nat.succ fuel =>
    let color := g.getPlayerToMove b
    let legalMoves := g.getPseudoLegalCheckEscapes b color
    match qescLoop g fuel b color plies legalMoves alpha beta (-INFTY) ply with
    | none => none
    | some (EscLoopOut.ret v) => some v
    | some (EscLoopOut.fall alpha1 score) =>
      if score = -INFTY then
        let mateScore : Int := -MATE_SCORE + (ply : Int) + plies
        if mateScore ≥ beta then some beta
        else if mateScore > alpha1 then some mateScore
        else some alpha1
      else some alpha1
termination_by structural fuel

/-- Check-evasion loop of checkQuiescence (search.cpp lines 696-716): plain
iteration over the evasions, recursing into quiescence; tracks the last
searched score so the caller can detect that no evasion was legal. -/
def qescLoop {P : Type} (g : Game P) (fuel : Nat) (b : P) (color : Nat)
    (plies : Int) (moves : List Move) (alpha beta score : Int) (ply : Nat) :
    Option EscLoopOut :=
  match fuel with
  | 0 => none
  | Nat.succ fuel =>
    match moves with
    | [] => some (EscLoopOut.fall alpha score)
    | m :: rest =>
      match g.doPseudoLegalMove b m color with
      | none => qescLoop g fuel b color plies rest alpha beta score ply
      | some copy =>
        match quiescence g fuel copy (plies + 1) (-beta) (-alpha) ply with
        | none => none
        | some v =>
          let score1 := -v
          if score1 ≥ beta then some (EscLoopOut.ret beta)
          else if score1 > alpha then
            qescLoop g fuel b color plies rest score1 beta score1 ply
          else qescLoop g fuel b color plies rest alpha beta score1 ply
termination_by structural fuel

end

mutual

/-- PVS from search.cpp lines 243-464: quiescence frontier, draw clamp,
transposition-table probe, null-move pruning, reverse futility pruning,
then the move loop; with mate/stalemate scoring and the epilogue
transposition-table stores on fall-through. -/
def PVS {P : Type} [DecidableEq P] (g : Game P) (fuel : Nat) (b : P)
    (depth alpha beta : Int) (st : SState P) : Option (Int × SState P) :=
  match fuel with
  | 0 => none
  | Nat.succ fuel =>
    if depth ≤ 0 then
      match quiescence g fuel b 0 alpha beta st.ply with
      | none => none
      | some v => some (v, st)
    else if g.isDraw b then
      some (if 0 ≥ beta then beta else if 0 > alpha then 0 else alpha, st)
    else
      let prevAlpha := alpha
      let color := g.getPlayerToMove b
      match probeTT g fuel b depth alpha beta st with
      | none => none
      | some (hashScore, hashed, alpha, st) =>
        if hashScore ≠ -INFTY then some (hashScore, st)
        else
          let isPVNode : Bool := decide (beta - alpha ≠ 1)
          let isInCheck := g.isInCheck b color
          let staticEval := if color = WHITE then g.evaluate b else -(g.evaluate b)
          let nullStep : Option ((Int × SState P) ⊕ SState P) :=
            if depth ≥ 3 ∧ isPVNode = false ∧ isInCheck = false ∧
               st.nullMoveCount < 2 ∧ staticEval ≥ beta ∧
               g.getNonPawnMaterial b color = true then
              let reduction := nullMoveReduction depth staticEval beta
              match PVS g fuel (g.doNullMove b) (depth - 1 - reduction) (-beta) (-alpha)
                  (incPly (incNull st)) with
              | none => none
              | some (v, st2) =>
                let nullScore := -v
                if nullScore ≥ beta then some (Sum.inl (beta, decNull (decPly st2)))
                else some (Sum.inr (decNull (decPly st2)))
            else some (Sum.inr st)
          match nullStep with
          | none => none
          | some (Sum.inl r) => some r
          | some (Sum.inr st) =>
            if isPVNode = false ∧ isInCheck = false ∧ depth ≤ 2 ∧
               staticEval - REVERSE_FUTILITY_MARGIN depth ≥ beta ∧
               g.getNonPawnMaterial b color = true then
              some (beta, st)
            else
              let moves := g.generateMoves b hashed
              let movesSearched : Nat := if hashed = NULL_MOVE then 0 else 1
              match pvsMoveLoop g fuel b color depth prevAlpha isPVNode isInCheck staticEval
                  moves movesSearched NULL_MOVE (-INFTY) alpha beta st with
              | none => none
              | some (PvsLoopOut.ret v, st1) => some (v, st1)
              | some (PvsLoopOut.fall alpha score toHash, st1) =>
                if score = -INFTY then
                  some (scoreMate isInCheck depth alpha beta st1.ply, st1)
                else if toHash ≠ NULL_MOVE ∧ prevAlpha < alpha ∧ alpha < beta then
                  some (alpha, ttAdd st1 b depth toHash alpha NodeType.PV_NODE)
                else if alpha ≤ prevAlpha then
                  some (alpha, ttAdd st1 b depth NULL_MOVE alpha NodeType.ALL_NODE)
                else some (alpha, st1)
termination_by structural fuel

/-- probeTT from search.cpp lines 467-529: ALL-node upper-bound cutoff at
alpha, CUT-node lower-bound cutoff at beta, otherwise validate the hash move
(Type-1 defense) and search it immediately with a full window; a result of
-INFTY as first component means no cutoff occurred.  The possibly-raised
alpha and the hash move are returned alongside. -/
def probeTT {P : Type} [DecidableEq P] (g : Game P) (fuel : Nat) (b : P)
    (depth alpha beta : Int) (st : SState P) : Option (Int × Move × Int × SState P) :=
  match fuel with
  | 0 => none
  | Nat.succ fuel =>
    match st.tt b with
    | none => some (-INFTY, NULL_MOVE, alpha, st)
    | some entry =>
      let hashScore := entry.score
      if entry.nodeType = NodeType.ALL_NODE then
        if entry.depth ≥ depth ∧ hashScore ≤ alpha then some (alpha, NULL_MOVE, alpha, st)
        else some (-INFTY, NULL_MOVE, alpha, st)
      else
        let hashed := entry.m
        if entry.depth ≥ depth ∧ entry.nodeType = NodeType.CUT_NODE ∧ hashScore ≥ beta then
          some (beta, hashed, alpha, st)
        else
          match g.doHashMove b hashed (g.getPlayerToMove b) with
          | none => some (-INFTY, NULL_MOVE, alpha, st)
          | some copy =>
            match PVS g fuel copy (depth - 1) (-beta) (-alpha) (incPly st) with
            | none => none
            | some (v, st2) =>
              let score := -v
              let st3 := decPly st2
              if score ≥ beta then some (beta, hashed, alpha, st3)
              else if score > alpha then some (-INFTY, hashed, score, st3)
              else some (-INFTY, hashed, alpha, st3)
termination_by structural fuel

/-- Move loop of PVS (search.cpp lines 340-441): per iteration, a timeout
poll and stop check, futility pruning, pseudo-legal move validation, LMR,
the null-window search with re-search, then the beta-cutoff bookkeeping
(CUT-node store, killer update) or the alpha update. -/
def pvsMoveLoop {P : Type} [DecidableEq P] (g : Game P) (fuel : Nat) (b : P)
    (color : Nat) (depth prevAlpha : Int) (isPVNode isInCheck : Bool)
    (staticEval : Int) (moves : List Move) (movesSearched : Nat) (toHash : Move)
    (score alpha beta : Int) (st : SState P) : Option (PvsLoopOut × SState P) :=
  match fuel with
  | 0 => none
  | Nat.succ fuel =>
    match moves with
    | [] => some (PvsLoopOut.fall alpha score toHash, st)
    | m :: rest =>
      if m = NULL_MOVE then some (PvsLoopOut.fall alpha score toHash, st)
      else
        let stop1 := st.isStop || g.timeout st.clock
        let st := { st with clock := st.clock + 1, isStop := stop1 }
        if stop1 = true then some (PvsLoopOut.ret (-INFTY), st)
        else if depth ≤ 3 ∧ staticEval ≤ alpha - FUTILITY_MARGIN depth ∧
                nodeIsReducible isPVNode isInCheck = true ∧ g.isCapture m = false ∧
                |alpha| < QUEEN_VALUE ∧ g.isPromotion m = false ∧
                g.isCheckMove b m color = false then
          pvsMoveLoop g fuel b color depth prevAlpha isPVNode isInCheck staticEval rest
            movesSearched toHash alpha alpha beta st
        else
          match g.doPseudoLegalMove b m color with
          | none =>
            pvsMoveLoop g fuel b color depth prevAlpha isPVNode isInCheck staticEval rest
              movesSearched toHash score alpha beta st
          | some copy =>
            let reduction : Int :=
              if nodeIsReducible isPVNode isInCheck = true ∧ g.isCapture m = false ∧
                 depth ≥ 3 ∧ movesSearched > 2 ∧ alpha ≤ prevAlpha ∧
                 m ≠ (st.killers st.ply).1 ∧ m ≠ (st.killers st.ply).2 ∧
                 g.isPromotion m = false ∧ g.isInCheck copy (color ^^^ 1) = false then
                min (depth - 2) (g.lmrAmount depth movesSearched)
              else 0
            let searched : Option (Int × SState P) :=
              if movesSearched ≠ 0 then
                match PVS g fuel copy (depth - 1 - reduction) (-alpha - 1) (-alpha)
                    (incPly st) with
                | none => none
                | some (v, st2) =>
                  let score1 := -v
                  let st3 := decPly st2
                  if alpha < score1 ∧ score1 < beta then
                    match PVS g fuel copy (depth - 1) (-beta) (-alpha) (incPly st3) with
                    | none => none
                    | some (v2, st4) => some (-v2, decPly st4)
                  else some (score1, st3)
              else
                match PVS g fuel copy (depth - 1) (-beta) (-alpha) (incPly st) with
                | none => none
                | some (v, st2) => some (-v, decPly st2)
            match searched with
            | none => none
            | some (score1, st5) =>
              if score1 ≥ beta then
                let st6 := ttAdd st5 b depth m beta NodeType.CUT_NODE
                let st7 := if g.isCapture m = false then recordKiller st6 m else st6
                some (PvsLoopOut.ret beta, st7)
              else if score1 > alpha then
                pvsMoveLoop g fuel b color depth prevAlpha isPVNode isInCheck staticEval rest
                  (movesSearched + 1) m score1 score1 beta st5
              else
                pvsMoveLoop g fuel b color depth prevAlpha isPVNode isInCheck staticEval rest
                  (movesSearched + 1) toHash score1 alpha beta st5
termination_by structural fuel

end

/-- Concrete instance of the abstract collaborators over positions numbered
by naturals, with every query trivial; the test games below override the
fields they need.  Used to evaluate the search on concrete inputs. -/
def baseGame : Game Nat where
  isDraw := fun _ => false
  getPlayerToMove := fun _ => 0
  isInCheck := fun _ _ => false
  evaluate := fun _ => 0
  evaluateMaterial := fun _ => 0
  evaluatePositional := fun _ => 0
  getNonPawnMaterial := fun _ _ => false
  doNullMove := fun b => b
  doPseudoLegalMove := fun _ _ _ => none
  doHashMove := fun _ _ _ => none
  isCheckMove := fun _ _ _ => false
  getPieceOnSquare := fun _ _ _ => 0
  valueOfPiece := fun _ => 0
  getMVVLVAScore := fun _ _ _ => 0
  getExchangeScore := fun _ _ _ => 0
  getSEE := fun _ _ _ => 0
  getPseudoLegalCaptures := fun _ _ _ => []
  getPseudoLegalPromotions := fun _ _ => []
  getPseudoLegalChecks := fun _ _ => []
  getPseudoLegalCheckEscapes := fun _ _ => []
  isCapture := fun _ => false
  isPromotion := fun _ => false
  getEndSq := fun _ => 0
  generateMoves := fun _ _ => []
  lmrAmount := fun _ _ => 0
  timeout := fun _ => false

/-- Search state at the start of a search: ply 0, empty killer and
transposition tables, stop flag clear. -/
def baseState : SState Nat where
  ply := 0
  nullMoveCount := 0
  nmcHigh := 0
  killers := fun _ => (NULL_MOVE, NULL_MOVE)
  tt := fun _ => none
  isStop := false
  clock := 0
  rootMoveNumber := 0

/-- Game in which every position is reported drawn. -/
def gDraw : Game Nat := { baseGame with isDraw := fun _ => true }

/-- Game with one capture available at position 0 (move 5, leading to
position 1); quiescence at position 0 searches that capture. -/
def gCap : Game Nat :=
  { baseGame with
    getPlayerToMove := fun b => if b = 0 then 0 else 1
    evaluateMaterial := fun b => if b = 0 then 0 else -50
    getPseudoLegalCaptures := fun b _ _ => if b = 0 then [5] else []
    doPseudoLegalMove := fun b m _ => if b = 0 ∧ m = 5 then some 1 else none }

/-- State with the stop flag raised. -/
def stStop : SState Nat := { baseState with isStop := true }

/-- Game with a single quiet legal move 7 at position 0; after it the
opponent at position 1 is hopeless, so the search of move 7 fails high. -/
def gMate : Game Nat :=
  { baseGame with
    getPlayerToMove := fun b => if b = 0 then 0 else 1
    evaluateMaterial := fun b => if b = 0 then 0 else 100000
    generateMoves := fun b _ => if b = 0 then [7] else []
    doPseudoLegalMove := fun b m _ => if b = 0 ∧ m = 7 then some 1 else none }

/-- State at ply 5, otherwise fresh. -/
def stPly5 : SState Nat := { baseState with ply := 5 }

/-- Game with a stalemated position 0: not in check, one pseudo-legal quiet
move that is illegal, and a static evaluation far below alpha so that
futility pruning fires at depth 1. -/
def gStale : Game Nat :=
  { baseGame with
    evaluate := fun _ => -9999
    generateMoves := fun b _ => if b = 0 then [3] else [] }

/-- State holding an ALL-node transposition entry for position 0 with
stored depth 3 and stored score 4. -/
def stAllEntry : SState Nat :=
  { baseState with tt := fun b =>
      if b = 0 then some ⟨9, 4, 3, NodeType.ALL_NODE, 0⟩ else none }

/-- State holding a PV-node transposition entry for position 0 whose stored
score 1000 and depth 5 would cut off any reasonable window if PV entries
produced score cutoffs. -/
def stPvEntry : SState Nat :=
  { baseState with tt := fun b =>
      if b = 0 then some ⟨9, 1000, 5, NodeType.PV_NODE, 0⟩ else none }

/-- Search state reached after the move loop of gMate performs its beta
cutoff at ply 5: the clock was polled once and the cutoff bookkeeping ran on
the entry state. -/
def stMateAfter : SState Nat :=
  recordKiller (ttAdd { stPly5 with clock := stPly5.clock + 1, isStop := false }
    0 1 7 (MATE_SCORE - 2) NodeType.CUT_NODE) 7


/-
Helper lemmas shared by the claim theorems.
-/

theorem scoreMateMem (isInCheck : Bool) (depth alpha beta : Int) (ply : Nat)
    (hab : alpha < beta) :
    alpha ≤ scoreMate isInCheck depth alpha beta ply ∧
    scoreMate isInCheck depth alpha beta ply ≤ beta := by
  simp only [scoreMate]
  generalize (if isInCheck then -MATE_SCORE + (ply : Int) else 0 : Int) = s
  split
  · omega
  · split <;> omega

theorem qsBlockBound {P : Type} (g : Game P) : ∀ fuel : Nat,
    (∀ b plies alpha beta ply v, alpha < beta →
      quiescence g fuel b plies alpha beta ply = some v → alpha ≤ v ∧ v ≤ beta) ∧
    (∀ b plies alpha beta ply v, alpha < beta →
      checkQuiescence g fuel b plies alpha beta ply = some v → alpha ≤ v ∧ v ≤ beta) ∧
    (∀ b color plies standPat moves scores i alpha beta ply r, alpha < beta →
      qcapLoop g fuel b color plies standPat moves scores i alpha beta ply = some r →
      qOutOK alpha beta r) ∧
    (∀ b color plies moves alpha beta ply r, alpha < beta →
      qpromLoop g fuel b color plies moves alpha beta ply = some r →
      qOutOK alpha beta r) ∧
    (∀ b color plies moves alpha beta ply r, alpha < beta →
      qchkLoop g fuel b color plies moves alpha beta ply = some r →
      qOutOK alpha beta r) ∧
    (∀ b color plies moves alpha beta score ply r, alpha < beta →
      qescLoop g fuel b color plies moves alpha beta score ply = some r →
      escOutOK alpha beta r) := by
  intro fuel
  induction fuel with
  | zero =>
    exact ⟨fun _ _ _ _ _ _ _ h => Option.noConfusion h,
           fun _ _ _ _ _ _ _ h => Option.noConfusion h,
           fun _ _ _ _ _ _ _ _ _ _ _ _ h => Option.noConfusion h,
           fun _ _ _ _ _ _ _ _ _ h => Option.noConfusion h,
           fun _ _ _ _ _ _ _ _ _ h => Option.noConfusion h,
           fun _ _ _ _ _ _ _ _ _ _ h => Option.noConfusion h⟩
  | succ fuel ih =>
    obtain ⟨ihQ, ihCQ, ihCap, ihProm, ihChk, ihEsc⟩ := ih
    refine ⟨?_, ?_, ?_, ?_, ?_, ?_⟩
    · -- quiescence
      intro b plies alpha beta ply v hab h
      simp only [quiescence] at h
      generalize hsp0 : (if g.getPlayerToMove b = WHITE then g.evaluateMaterial b
        else -g.evaluateMaterial b : Int) = sp0 at h
      generalize hsp1 : (if g.getPlayerToMove b = WHITE then g.evaluatePositional b
        else -g.evaluatePositional b : Int) = sp1 at h
      generalize halpha1 : (if alpha < sp0 + sp1 then sp0 + sp1 else alpha : Int) = alpha1 at h
      have ha1 : alpha ≤ alpha1 := by rw [← halpha1]; split <;> omega
      split at h
      · exact ihCQ _ _ _ _ _ _ hab h
      · split at h
        · cases h; omega
        · split at h
          · cases h; omega
          · split at h
            · cases h; omega
            · have ha1b : alpha1 < beta := by rw [← halpha1]; split <;> omega
              split at h
              · cases h; omega
              · split at h
                · exact absurd h (by simp)
                · rename_i v1 heq
                  have hcap := ihCap _ _ _ _ _ _ _ _ _ _ _ ha1b heq
                  simp only [qOutOK] at hcap
                  cases h; omega
                · rename_i alpha2 heq
                  have hcap := ihCap _ _ _ _ _ _ _ _ _ _ _ ha1b heq
                  simp only [qOutOK] at hcap
                  split at h
                  · exact absurd h (by simp)
                  · rename_i v1 heq2
                    have hprom := ihProm _ _ _ _ _ _ _ _ hcap.2 heq2
                    simp only [qOutOK] at hprom
                    cases h; omega
                  · rename_i alpha3 heq2
                    have hprom := ihProm _ _ _ _ _ _ _ _ hcap.2 heq2
                    simp only [qOutOK] at hprom
                    split at h
                    · split at h
                      · exact absurd h (by simp)
                      · rename_i v1 heq3
                        have hchk := ihChk _ _ _ _ _ _ _ _ hprom.2 heq3
                        simp only [qOutOK] at hchk
                        cases h; omega
                      · rename_i alpha4 heq3
                        have hchk := ihChk _ _ _ _ _ _ _ _ hprom.2 heq3
                        simp only [qOutOK] at hchk
                        cases h; omega
                    · cases h; omega
    · -- checkQuiescence
      intro b plies alpha beta ply v hab h
      simp only [checkQuiescence] at h
      split at h
      · exact absurd h (by simp)
      · rename_i v1 heq
        have hesc := ihEsc _ _ _ _ _ _ _ _ _ hab heq
        simp only [escOutOK] at hesc
        cases h; omega
      · rename_i alpha1 score heq
        have hesc := ihEsc _ _ _ _ _ _ _ _ _ hab heq
        simp only [escOutOK] at hesc
        split at h
        · split at h
          · cases h; omega
          · split at h
            · cases h; omega
            · cases h; omega
        · cases h; omega
    · -- qcapLoop
      intro b color plies standPat moves scores i alpha beta ply r hab h
      simp only [qcapLoop] at h
      rcases hnm : nextMove moves scores i with ⟨m, moves1, scores1⟩
      rw [hnm] at h
      simp only at h
      split at h
      · cases h; simp only [qOutOK]; omega
      · split at h
        · exact ihCap _ _ _ _ _ _ _ _ _ _ _ hab h
        · split at h
          · exact ihCap _ _ _ _ _ _ _ _ _ _ _ hab h
          · split at h
            · exact ihCap _ _ _ _ _ _ _ _ _ _ _ hab h
            · rename_i copy hdo
              split at h
              · exact absurd h (by simp)
              · rename_i v1 heq
                have hq := ihQ _ _ _ _ _ _ (by omega) heq
                split at h
                · cases h; simp only [qOutOK]
                · split at h
                  · have hres := ihCap _ _ _ _ _ _ _ _ _ _ _ (by omega) h
                    cases r <;> simp only [qOutOK] at hres ⊢ <;> omega
                  · exact ihCap _ _ _ _ _ _ _ _ _ _ _ hab h
    · -- qpromLoop
      intro b color plies moves alpha beta ply r hab h
      cases moves with
      | nil =>
        simp only [qpromLoop] at h
        cases h; simp only [qOutOK]; omega
      | cons m rest =>
        simp only [qpromLoop] at h
        split at h
        · exact ihProm _ _ _ _ _ _ _ _ hab h
        · split at h
          · exact ihProm _ _ _ _ _ _ _ _ hab h
          · rename_i copy hdo
            split at h
            · exact absurd h (by simp)
            · rename_i v1 heq
              have hq := ihQ _ _ _ _ _ _ (by omega) heq
              split at h
              · cases h; simp only [qOutOK]
              · split at h
                · have hres := ihProm _ _ _ _ _ _ _ _ (by omega) h
                  cases r <;> simp only [qOutOK] at hres ⊢ <;> omega
                · exact ihProm _ _ _ _ _ _ _ _ hab h
    · -- qchkLoop
      intro b color plies moves alpha beta ply r hab h
      cases moves with
      | nil =>
        simp only [qchkLoop] at h
        cases h; simp only [qOutOK]; omega
      | cons m rest =>
        simp only [qchkLoop] at h
        split at h
        · exact ihChk _ _ _ _ _ _ _ _ hab h
        · rename_i copy hdo
          split at h
          · exact absurd h (by simp)
          · rename_i v1 heq
            have hq := ihCQ _ _ _ _ _ _ (by omega) heq
            split at h
            · cases h; simp only [qOutOK]
            · split at h
              · have hres := ihChk _ _ _ _ _ _ _ _ (by omega) h
                cases r <;> simp only [qOutOK] at hres ⊢ <;> omega
              · exact ihChk _ _ _ _ _ _ _ _ hab h
    · -- qescLoop
      intro b color plies moves alpha beta score ply r hab h
      cases moves with
      | nil =>
        simp only [qescLoop] at h
        cases h; simp only [escOutOK]; omega
      | cons m rest =>
        simp only [qescLoop] at h
        split at h
        · exact ihEsc _ _ _ _ _ _ _ _ _ hab h
        · rename_i copy hdo
          split at h
          · exact absurd h (by simp)
          · rename_i v1 heq
            have hq := ihQ _ _ _ _ _ _ (by omega) heq
            split at h
            · cases h; simp only [escOutOK]
            · split at h
              · have hres := ihEsc _ _ _ _ _ _ _ _ _ (by omega) h
                cases r <;> simp only [escOutOK] at hres ⊢ <;> omega
              · exact ihEsc _ _ _ _ _ _ _ _ _ hab h

theorem pvsBlockInv {P : Type} [DecidableEq P] (g : Game P)
    (htime : ∀ n, g.timeout n = false) : ∀ fuel : Nat,
    (∀ b depth alpha beta st v st1, st.isStop = false → alpha < beta →
      PVS g fuel b depth alpha beta st = some (v, st1) →
      st1.isStop = false ∧ alpha ≤ v ∧ v ≤ beta) ∧
    (∀ b depth alpha beta st hs hm alpha1 st1, st.isStop = false → alpha < beta →
      probeTT g fuel b depth alpha beta st = some (hs, hm, alpha1, st1) →
      st1.isStop = false ∧ alpha ≤ alpha1 ∧ alpha1 < beta ∧
      (hs ≠ -INFTY → alpha ≤ hs ∧ hs ≤ beta)) ∧
    (∀ b color depth prevAlpha isPVNode isInCheck staticEval moves movesSearched
        toHash score alpha beta st out st1, st.isStop = false → alpha < beta →
      pvsMoveLoop g fuel b color depth prevAlpha isPVNode isInCheck staticEval moves
        movesSearched toHash score alpha beta st = some (out, st1) →
      st1.isStop = false ∧ pvsOutOK alpha beta st1 b depth out) := by
  intro fuel
  induction fuel with
  | zero =>
    exact ⟨fun _ _ _ _ _ _ _ _ _ h => Option.noConfusion h,
           fun _ _ _ _ _ _ _ _ _ _ _ h => Option.noConfusion h,
           fun _ _ _ _ _ _ _ _ _ _ _ _ _ _ _ _ _ _ h => Option.noConfusion h⟩
  | succ fuel ih =>
    obtain ⟨ihPVS, ihProbe, ihLoop⟩ := ih
    refine ⟨?_, ?_, ?_⟩
    · -- PVS
      intro b depth alpha beta st v st1 hstop hab h
      simp only [PVS] at h
      split at h
      · -- frontier
        split at h
        · exact absurd h (by simp)
        · rename_i v1 heq
          cases h
          exact ⟨hstop, (qsBlockBound g fuel).1 _ _ _ _ _ _ hab heq⟩
      · split at h
        · -- draw
          cases h
          refine ⟨hstop, ?_⟩
          split
          · omega
          · split <;> omega
        · split at h
          · exact absurd h (by simp)
          · rename_i hs hm alpha2 st2 hprobeEq
            have hprobe := ihProbe _ _ _ _ _ _ _ _ _ hstop hab hprobeEq
            split at h
            · cases h
              exact ⟨hprobe.1, hprobe.2.2.2 (by assumption)⟩
            · generalize hse : (if g.getPlayerToMove b = WHITE then g.evaluate b
                else -g.evaluate b : Int) = se at h
              split at h
              · exact absurd h (by simp)
              · -- null-move cutoff arm
                rename_i r heq
                cases h
                split at heq
                · split at heq
                  · exact absurd heq (by simp)
                  · rename_i v1 st3 hnullEq
                    have hnull := ihPVS _ _ _ _ _ _ _
                      (by simp [incPly, incNull, hprobe.1]) (by omega) hnullEq
                    split at heq
                    · simp only [Option.some.injEq, Sum.inl.injEq, Prod.mk.injEq] at heq
                      obtain ⟨hv, hst⟩ := heq
                      subst hv hst
                      exact ⟨by simp [decNull, decPly, hnull.1], by omega, by omega⟩
                    · exact absurd heq (by simp)
                · exact absurd heq (by simp)
              · -- null-move fall-through arm
                rename_i st3 heq
                have hst3 : st3.isStop = false := by
                  split at heq
                  · split at heq
                    · exact absurd heq (by simp)
                    · rename_i v1 st4 hnullEq
                      have hnull := ihPVS _ _ _ _ _ _ _
                        (by simp [incPly, incNull, hprobe.1]) (by omega) hnullEq
                      split at heq
                      · exact absurd heq (by simp)
                      · simp only [Option.some.injEq, Sum.inr.injEq] at heq
                        subst heq
                        simp [decNull, decPly, hnull.1]
                  · simp only [Option.some.injEq, Sum.inr.injEq] at heq
                    subst heq
                    exact hprobe.1
                split at h
                · -- reverse futility
                  cases h
                  exact ⟨hst3, by omega, by omega⟩
                · split at h
                  · exact absurd h (by simp)
                  · -- loop returned ret
                    rename_i v1 stL hloopEq
                    have hloop := ihLoop _ _ _ _ _ _ _ _ _ _ _ _ _ _ _ _
                      hst3 (by omega) hloopEq
                    simp only [pvsOutOK] at hloop
                    cases h
                    exact ⟨hloop.1, by omega, by omega⟩
                  · -- loop fell through
                    rename_i alpha3 score3 toHash3 stL hloopEq
                    have hloop := ihLoop _ _ _ _ _ _ _ _ _ _ _ _ _ _ _ _
                      hst3 (by omega) hloopEq
                    simp only [pvsOutOK] at hloop
                    split at h
                    · -- scoreMate
                      simp only [Option.some.injEq, Prod.mk.injEq] at h
                      obtain ⟨hv, hst⟩ := h
                      have hsm := scoreMateMem (g.isInCheck b (g.getPlayerToMove b))
                        depth alpha3 beta stL.ply (by omega)
                      subst hst
                      exact ⟨hloop.1, by omega, by omega⟩
                    · split at h
                      · cases h
                        exact ⟨by simp [ttAdd, hloop.1], by omega, by omega⟩
                      · split at h
                        · cases h
                          exact ⟨by simp [ttAdd, hloop.1], by omega, by omega⟩
                        · cases h
                          exact ⟨hloop.1, by omega, by omega⟩
    · -- probeTT
      intro b depth alpha beta st hs hm alpha1 st1 hstop hab h
      simp only [probeTT] at h
      split at h
      · cases h
        exact ⟨hstop, le_refl _, hab, fun hne => absurd rfl hne⟩
      · rename_i entry heq
        split at h
        · split at h
          · cases h
            exact ⟨hstop, le_refl _, hab, fun _ => ⟨le_refl _, by omega⟩⟩
          · cases h
            exact ⟨hstop, le_refl _, hab, fun hne => absurd rfl hne⟩
        · split at h
          · cases h
            exact ⟨hstop, le_refl _, hab, fun _ => ⟨by omega, le_refl _⟩⟩
          · split at h
            · cases h
              exact ⟨hstop, le_refl _, hab, fun hne => absurd rfl hne⟩
            · rename_i copy hdoEq
              split at h
              · exact absurd h (by simp)
              · rename_i v1 st2 hpvsEq
                have hrec := ihPVS _ _ _ _ _ _ _ (by simp [incPly, hstop]) (by omega) hpvsEq
                split at h
                · cases h
                  exact ⟨by simp [decPly, hrec.1], le_refl _, hab, fun _ => ⟨by omega, le_refl _⟩⟩
                · split at h
                  · cases h
                    exact ⟨by simp [decPly, hrec.1], by omega, by omega, fun hne => absurd rfl hne⟩
                  · cases h
                    exact ⟨by simp [decPly, hrec.1], le_refl _, hab, fun hne => absurd rfl hne⟩
    · -- pvsMoveLoop
      intro b color depth prevAlpha isPVNode isInCheck staticEval moves movesSearched
        toHash score alpha beta st out st1 hstop hab h
      cases moves with
      | nil =>
        simp only [pvsMoveLoop] at h
        cases h
        exact ⟨hstop, le_refl _, hab⟩
      | cons m rest =>
        simp only [pvsMoveLoop] at h
        split at h
        · cases h
          exact ⟨hstop, le_refl _, hab⟩
        · simp only [hstop, htime, Bool.false_or] at h
          split at h
          · rename_i hcontra
            exact absurd hcontra (by simp)
          · split at h
            · -- futility prune
              exact ihLoop _ _ _ _ _ _ _ _ _ _ _ _ _ _ _ _ rfl hab h
            · split at h
              · -- illegal pseudo-legal move
                exact ihLoop _ _ _ _ _ _ _ _ _ _ _ _ _ _ _ _ rfl hab h
              · rename_i copy hdoEq
                split at h
                · exact absurd h (by simp)
                · rename_i score1 st5 hsearchEq
                  have hst5 : st5.isStop = false := by
                    split at hsearchEq
                    · split at hsearchEq
                      · exact absurd hsearchEq (by simp)
                      · rename_i v1 st2 hpvs1
                        have hrec1 := ihPVS _ _ _ _ _ _ _ (by simp [incPly]) (by omega) hpvs1
                        split at hsearchEq
                        · split at hsearchEq
                          · exact absurd hsearchEq (by simp)
                          · rename_i v2 st4 hpvs2
                            have hrec2 := ihPVS _ _ _ _ _ _ _
                              (by simp [incPly, decPly, hrec1.1]) (by omega) hpvs2
                            simp only [Option.some.injEq, Prod.mk.injEq] at hsearchEq
                            obtain ⟨_, hst⟩ := hsearchEq
                            subst hst
                            simp [decPly, hrec2.1]
                        · simp only [Option.some.injEq, Prod.mk.injEq] at hsearchEq
                          obtain ⟨_, hst⟩ := hsearchEq
                          subst hst
                          simp [decPly, hrec1.1]
                    · split at hsearchEq
                      · exact absurd hsearchEq (by simp)
                      · rename_i v1 st2 hpvs1
                        have hrec1 := ihPVS _ _ _ _ _ _ _ (by simp [incPly]) (by omega) hpvs1
                        simp only [Option.some.injEq, Prod.mk.injEq] at hsearchEq
                        obtain ⟨_, hst⟩ := hsearchEq
                        subst hst
                        simp [decPly, hrec1.1]
                  split at h
                  · -- beta cutoff
                    cases h
                    refine ⟨?_, ?_, ⟨m, ?_⟩⟩
                    · split <;> simp [recordKiller, ttAdd, hst5]
                    · rfl
                    · split <;> simp [recordKiller, ttAdd]
                  · split at h
                    · -- alpha raised
                      have hres := ihLoop _ _ _ _ _ _ _ _ _ _ _ _ _ _ _ _
                        hst5 (by omega) h
                      refine ⟨hres.1, ?_⟩
                      have hout := hres.2
                      cases out with
                      | ret v2 => exact hout
                      | fall a s t =>
                        simp only [pvsOutOK] at hout ⊢
                        omega
                    · exact ihLoop _ _ _ _ _ _ _ _ _ _ _ _ _ _ _ _ hst5 hab h

theorem nmcBlockInv {P : Type} [DecidableEq P] (g : Game P) : ∀ fuel : Nat,
    (∀ b depth alpha beta st v st1, st.nullMoveCount ≤ 2 → st.nmcHigh ≤ 2 →
      PVS g fuel b depth alpha beta st = some (v, st1) →
      st1.nullMoveCount = st.nullMoveCount ∧ st1.nmcHigh ≤ 2) ∧
    (∀ b depth alpha beta st hs hm alpha1 st1, st.nullMoveCount ≤ 2 → st.nmcHigh ≤ 2 →
      probeTT g fuel b depth alpha beta st = some (hs, hm, alpha1, st1) →
      st1.nullMoveCount = st.nullMoveCount ∧ st1.nmcHigh ≤ 2) ∧
    (∀ b color depth prevAlpha isPVNode isInCheck staticEval moves movesSearched
        toHash score alpha beta st out st1, st.nullMoveCount ≤ 2 → st.nmcHigh ≤ 2 →
      pvsMoveLoop g fuel b color depth prevAlpha isPVNode isInCheck staticEval moves
        movesSearched toHash score alpha beta st = some (out, st1) →
      st1.nullMoveCount = st.nullMoveCount ∧ st1.nmcHigh ≤ 2) := by
  intro fuel
  induction fuel with
  | zero =>
    exact ⟨fun _ _ _ _ _ _ _ _ _ h => Option.noConfusion h,
           fun _ _ _ _ _ _ _ _ _ _ _ h => Option.noConfusion h,
           fun _ _ _ _ _ _ _ _ _ _ _ _ _ _ _ _ _ _ h => Option.noConfusion h⟩
  | succ fuel ih =>
    obtain ⟨ihPVS, ihProbe, ihLoop⟩ := ih
    refine ⟨?_, ?_, ?_⟩
    · -- PVS
      intro b depth alpha beta st v st1 hnc hhigh h
      simp only [PVS] at h
      split at h
      · split at h
        · exact absurd h (by simp)
        · rename_i v1 heq
          cases h
          exact ⟨rfl, hhigh⟩
      · split at h
        · cases h
          exact ⟨rfl, hhigh⟩
        · split at h
          · exact absurd h (by simp)
          · rename_i hs hm alpha2 st2 hprobeEq
            have hprobe := ihProbe _ _ _ _ _ _ _ _ _ hnc hhigh hprobeEq
            split at h
            · cases h
              exact hprobe
            · generalize hse : (if g.getPlayerToMove b = WHITE then g.evaluate b
                else -g.evaluate b : Int) = se at h
              split at h
              · exact absurd h (by simp)
              · rename_i r heq
                cases h
                split at heq
                · split at heq
                  · exact absurd heq (by simp)
                  · rename_i v1 st3 hnullEq
                    have hnull := ihPVS _ _ _ _ _ _ _
                      (by simp [incPly, incNull]; omega)
                      (by simp [incPly, incNull, Nat.max_le]; omega) hnullEq
                    simp only [incPly, incNull] at hnull
                    split at heq
                    · simp only [Option.some.injEq, Sum.inl.injEq, Prod.mk.injEq] at heq
                      obtain ⟨hv, hst⟩ := heq
                      subst hv hst
                      constructor
                      · simp only [decNull, decPly]
                        omega
                      · simp only [decNull, decPly]
                        exact hnull.2
                    · exact absurd heq (by simp)
                · exact absurd heq (by simp)
              · rename_i st3 heq
                have hst3 : st3.nullMoveCount = st2.nullMoveCount ∧ st3.nmcHigh ≤ 2 := by
                  split at heq
                  · split at heq
                    · exact absurd heq (by simp)
                    · rename_i v1 st4 hnullEq
                      have hnull := ihPVS _ _ _ _ _ _ _
                        (by simp [incPly, incNull]; omega)
                        (by simp [incPly, incNull, Nat.max_le]; omega) hnullEq
                      simp only [incPly, incNull] at hnull
                      split at heq
                      · exact absurd heq (by simp)
                      · simp only [Option.some.injEq, Sum.inr.injEq] at heq
                        subst heq
                        constructor
                        · simp only [decNull, decPly]
                          omega
                        · simp only [decNull, decPly]
                          exact hnull.2
                  · simp only [Option.some.injEq, Sum.inr.injEq] at heq
                    subst heq
                    exact ⟨rfl, hprobe.2⟩
                split at h
                · cases h
                  exact ⟨hst3.1.trans hprobe.1, hst3.2⟩
                · split at h
                  · exact absurd h (by simp)
                  · rename_i v1 stL hloopEq
                    have hloop := ihLoop _ _ _ _ _ _ _ _ _ _ _ _ _ _ _ _
                      (by omega) hst3.2 hloopEq
                    cases h
                    exact ⟨hloop.1.trans (hst3.1.trans hprobe.1), hloop.2⟩
                  · rename_i alpha3 score3 toHash3 stL hloopEq
                    have hloop := ihLoop _ _ _ _ _ _ _ _ _ _ _ _ _ _ _ _
                      (by omega) hst3.2 hloopEq
                    split at h
                    · simp only [Option.some.injEq, Prod.mk.injEq] at h
                      obtain ⟨hv, hst⟩ := h
                      subst hst
                      exact ⟨hloop.1.trans (hst3.1.trans hprobe.1), hloop.2⟩
                    · split at h
                      · cases h
                        refine ⟨?_, ?_⟩ <;> simp only [ttAdd] <;>
                          [exact hloop.1.trans (hst3.1.trans hprobe.1); exact hloop.2]
                      · split at h
                        · cases h
                          refine ⟨?_, ?_⟩ <;> simp only [ttAdd] <;>
                            [exact hloop.1.trans (hst3.1.trans hprobe.1); exact hloop.2]
                        · cases h
                          exact ⟨hloop.1.trans (hst3.1.trans hprobe.1), hloop.2⟩
    · -- probeTT
      intro b depth alpha beta st hs hm alpha1 st1 hnc hhigh h
      simp only [probeTT] at h
      split at h
      · cases h
        exact ⟨rfl, hhigh⟩
      · rename_i entry heq
        split at h
        · split at h
          · cases h
            exact ⟨rfl, hhigh⟩
          · cases h
            exact ⟨rfl, hhigh⟩
        · split at h
          · cases h
            exact ⟨rfl, hhigh⟩
          · split at h
            · cases h
              exact ⟨rfl, hhigh⟩
            · rename_i copy hdoEq
              split at h
              · exact absurd h (by simp)
              · rename_i v1 st2 hpvsEq
                have hrec := ihPVS _ _ _ _ _ _ _
                  (by simp [incPly]; omega) (by simp [incPly]; omega) hpvsEq
                simp only [incPly] at hrec
                split at h
                · cases h
                  exact ⟨by simp only [decPly]; omega, by simp only [decPly]; exact hrec.2⟩
                · split at h
                  · cases h
                    exact ⟨by simp only [decPly]; omega, by simp only [decPly]; exact hrec.2⟩
                  · cases h
                    exact ⟨by simp only [decPly]; omega, by simp only [decPly]; exact hrec.2⟩
    · -- pvsMoveLoop
      intro b color depth prevAlpha isPVNode isInCheck staticEval moves movesSearched
        toHash score alpha beta st out st1 hnc hhigh h
      cases moves with
      | nil =>
        simp only [pvsMoveLoop] at h
        cases h
        exact ⟨rfl, hhigh⟩
      | cons m rest =>
        simp only [pvsMoveLoop] at h
        split at h
        · cases h
          exact ⟨rfl, hhigh⟩
        · split at h
          · cases h
            exact ⟨rfl, hhigh⟩
          · split at h
            · have hres := ihLoop b color depth prevAlpha isPVNode isInCheck staticEval
                rest movesSearched toHash alpha alpha beta _ out st1
                (by exact hnc) (by exact hhigh) h
              exact hres
            · split at h
              · have hres := ihLoop b color depth prevAlpha isPVNode isInCheck staticEval
                  rest movesSearched toHash score alpha beta _ out st1
                  (by exact hnc) (by exact hhigh) h
                exact hres
              · rename_i copy hdoEq
                split at h
                · exact absurd h (by simp)
                · rename_i score1 st5 hsearchEq
                  have hst5 : st5.nullMoveCount = st.nullMoveCount ∧ st5.nmcHigh ≤ 2 := by
                    split at hsearchEq
                    · split at hsearchEq
                      · exact absurd hsearchEq (by simp)
                      · rename_i v1 st2 hpvs1
                        have hrec1 := ihPVS _ _ _ _ _ _ _
                          (by simp [incPly]; omega) (by simp [incPly]; omega) hpvs1
                        simp only [incPly] at hrec1
                        split at hsearchEq
                        · split at hsearchEq
                          · exact absurd hsearchEq (by simp)
                          · rename_i v2 st4 hpvs2
                            have hrec2 := ihPVS _ _ _ _ _ _ _
                              (by simp [incPly, decPly]; omega)
                              (by simp [incPly, decPly]; exact hrec1.2) hpvs2
                            simp only [incPly, decPly] at hrec2
                            simp only [Option.some.injEq, Prod.mk.injEq] at hsearchEq
                            obtain ⟨_, hst⟩ := hsearchEq
                            subst hst
                            exact ⟨by simp only [decPly]; omega, by simp only [decPly]; exact hrec2.2⟩
                        · simp only [Option.some.injEq, Prod.mk.injEq] at hsearchEq
                          obtain ⟨_, hst⟩ := hsearchEq
                          subst hst
                          exact ⟨by simp only [decPly]; omega, by simp only [decPly]; exact hrec1.2⟩
                    · split at hsearchEq
                      · exact absurd hsearchEq (by simp)
                      · rename_i v1 st2 hpvs1
                        have hrec1 := ihPVS _ _ _ _ _ _ _
                          (by simp [incPly]; omega) (by simp [incPly]; omega) hpvs1
                        simp only [incPly] at hrec1
                        simp only [Option.some.injEq, Prod.mk.injEq] at hsearchEq
                        obtain ⟨_, hst⟩ := hsearchEq
                        subst hst
                        exact ⟨by simp only [decPly]; omega, by simp only [decPly]; exact hrec1.2⟩
                  split at h
                  · cases h
                    constructor
                    · split <;> simp only [recordKiller, ttAdd] <;> omega
                    · split <;> simp only [recordKiller, ttAdd] <;> exact hst5.2
                  · split at h
                    · have hres := ihLoop _ _ _ _ _ _ _ _ _ _ _ _ _ _ _ _
                        (by omega) hst5.2 h
                      exact ⟨hres.1.trans hst5.1, hres.2⟩
                    · have hres := ihLoop _ _ _ _ _ _ _ _ _ _ _ _ _ _ _ _
                        (by omega) hst5.2 h
                      exact ⟨hres.1.trans hst5.1, hres.2⟩

/-- Helper: the scan of argmaxFrom returns either its incoming best index
(whose score bounds every listed score) or the position of a maximal listed
score that strictly exceeds the incoming best. -/
theorem argmaxFrom_spec : ∀ (l : List Int) (bi : Nat) (bs : Int) (i : Nat),
    (argmaxFrom l bi bs i = bi ∧ ∀ k, k < l.length → l.getD k 0 ≤ bs) ∨
    (∃ k, k < l.length ∧ argmaxFrom l bi bs i = i + k ∧ bs < l.getD k 0 ∧
      ∀ k2, k2 < l.length → l.getD k2 0 ≤ l.getD k 0) := by
  intro l
  induction l with
  | nil =>
    intro bi bs i
    left
    exact ⟨rfl, by simp⟩
  | cons x rest ihl =>
    intro bi bs i
    simp only [argmaxFrom]
    split
    · rename_i hx
      rcases ihl i x (i + 1) with ⟨heq, hall⟩ | ⟨k, hk, heq, hklt, hall⟩
      · right
        refine ⟨0, by simp, by rw [heq]; omega, by simpa using hx, ?_⟩
        intro k2 hk2
        cases k2 with
        | zero => simp
        | succ k2 =>
          simp only [List.getD_cons_succ, List.getD_cons_zero]
          exact hall k2 (by simpa using hk2)
      · right
        refine ⟨k + 1, by simpa using hk, by rw [heq]; omega, ?_, ?_⟩
        · simp only [List.getD_cons_succ]
          omega
        · intro k2 hk2
          cases k2 with
          | zero =>
            simp only [List.getD_cons_succ, List.getD_cons_zero]
            omega
          | succ k2 =>
            simp only [List.getD_cons_succ]
            exact hall k2 (by simpa using hk2)
    · rename_i hx
      rcases ihl bi bs (i + 1) with ⟨heq, hall⟩ | ⟨k, hk, heq, hklt, hall⟩
      · left
        refine ⟨heq, ?_⟩
        intro k2 hk2
        cases k2 with
        | zero => simp; omega
        | succ k2 =>
          simp only [List.getD_cons_succ]
          exact hall k2 (by simpa using hk2)
      · right
        refine ⟨k + 1, by simpa using hk, by rw [heq]; omega, ?_, ?_⟩
        · simp only [List.getD_cons_succ]
          exact hklt
        · intro k2 hk2
          cases k2 with
          | zero =>
            simp only [List.getD_cons_succ, List.getD_cons_zero]
            omega
          | succ k2 =>
            simp only [List.getD_cons_succ]
            exact hall k2 (by simpa using hk2)

/-- Helper: at depth at least 4 (futility pruning off) and with the search
uninterrupted, a move loop all of whose moves fail doPseudoLegalMove falls
through with alpha, score and toHash unchanged. -/
theorem loopAllIllegal {P : Type} [DecidableEq P] (g : Game P)
    (htime : ∀ n, g.timeout n = false)
    (b : P) (color : Nat) (depth prevAlpha : Int) (isPVNode isInCheck : Bool)
    (staticEval : Int) (hdepth : 4 ≤ depth) :
    ∀ (moves : List Move) (fuel : Nat) (movesSearched : Nat) (toHash : Move)
      (score alpha beta : Int) (st : SState P),
      moves.length < fuel → st.isStop = false →
      (∀ m, m ∈ moves → g.doPseudoLegalMove b m color = none) →
      ∃ st1, pvsMoveLoop g fuel b color depth prevAlpha isPVNode isInCheck staticEval
          moves movesSearched toHash score alpha beta st =
        some (PvsLoopOut.fall alpha score toHash, st1) := by
  intro moves
  induction moves with
  | nil =>
    intro fuel movesSearched toHash score alpha beta st hfuel hstop hmoves
    cases fuel with
    | zero => omega
    | succ f => exact ⟨st, rfl⟩
  | cons m rest ihm =>
    intro fuel movesSearched toHash score alpha beta st hfuel hstop hmoves
    cases fuel with
    | zero => simp at hfuel
    | succ f =>
      by_cases hm : m = NULL_MOVE
      · refine ⟨st, ?_⟩
        simp only [pvsMoveLoop]
        rw [if_pos hm]
      · have hstep : pvsMoveLoop g (f + 1) b color depth prevAlpha isPVNode isInCheck
            staticEval (m :: rest) movesSearched toHash score alpha beta st =
            pvsMoveLoop g f b color depth prevAlpha isPVNode isInCheck staticEval rest
              movesSearched toHash score alpha beta
              { st with clock := st.clock + 1, isStop := false } := by
          simp only [pvsMoveLoop, hstop, htime, Bool.false_or]
          rw [if_neg hm, if_neg (by simp),
            if_neg (fun hc => absurd hc.1 (by omega)),
            hmoves m (List.mem_cons_self m rest)]
        rw [hstep]
        exact ihm f movesSearched toHash score alpha beta _ (by simp at hfuel ⊢; omega) rfl
          (fun m2 hm2 => hmoves m2 (List.mem_cons_of_mem m hm2))

/-- Claim C1: for every position, every depth D >= 1 and every window
alpha < beta, an uninterrupted PVS (stop flag clear, clock oracle never
firing) that produces a score produces one in [alpha, beta]; in particular
on a zero-width window [alpha, alpha + 1] it returns alpha or alpha + 1. -/
theorem pvs_fail_hard {P : Type} [DecidableEq P] (g : Game P) (fuel : Nat)
    (b : P) (depth alpha beta : Int) (st : SState P) (v : Int) (st1 : SState P)
    (htime : ∀ n, g.timeout n = false) (hstop : st.isStop = false)
    (hdepth : 1 ≤ depth) (hab : alpha < beta)
    (h : PVS g fuel b depth alpha beta st = some (v, st1)) :
    alpha ≤ v ∧ v ≤ beta ∧ (beta = alpha + 1 → v = alpha ∨ v = alpha + 1) := by
  have hinv := (pvsBlockInv g htime fuel).1 _ _ _ _ _ _ _ hstop hab h
  exact ⟨hinv.2.1, hinv.2.2, fun _ => by omega⟩

/-- Witness for claim C1 at the always-drawn game, depth 1, window [0, 1]. -/
theorem pvs_fail_hard_witness :
    (0 : Int) ≤ 0 ∧ (0 : Int) ≤ 1 ∧ ((1 : Int) = 0 + 1 → (0 : Int) = 0 ∨ (0 : Int) = 0 + 1) :=
  pvs_fail_hard gDraw 1 0 1 0 1 baseState 0 baseState
    (fun _ => rfl) rfl (by decide) (by decide) rfl

/-- Counterexample for claim C2 as stated: with the stop flag set, the
quiescence frame entered through PVS at depth 0 on gCap still iterates its
capture move loop (searching capture 5) and returns its normal score 0,
not -INFTY: quiescence has no stop check. -/
theorem quiescence_ignores_stop_counterexample :
    stStop.isStop = true ∧
    PVS gCap 10 0 0 (-10) 10 stStop = some (0, stStop) ∧
    (0 : Int) ≠ -INFTY :=
  ⟨rfl, rfl, by decide⟩

/-- Claim C2 as amended: whenever isStop is set, a PVS frame returns -INFTY
at its next move-loop iteration (after the one clock poll of that
iteration); quiescence and checkQuiescence have no stop check and run to
completion. -/
theorem pvs_stop_returns_minus_infty {P : Type} [DecidableEq P] (g : Game P)
    (fuel : Nat) (b : P) (color : Nat) (depth prevAlpha : Int)
    (isPVNode isInCheck : Bool) (staticEval : Int) (m : Move) (rest : List Move)
    (movesSearched : Nat) (toHash : Move) (score alpha beta : Int) (st : SState P)
    (hstop : st.isStop = true) (hm : m ≠ NULL_MOVE) :
    pvsMoveLoop g (fuel + 1) b color depth prevAlpha isPVNode isInCheck staticEval
      (m :: rest) movesSearched toHash score alpha beta st =
    some (PvsLoopOut.ret (-INFTY), { st with clock := st.clock + 1, isStop := true }) := by
  simp only [pvsMoveLoop, hstop, Bool.true_or]
  rw [if_neg hm]
  rfl

/-- Witness for claim C2 (amended) on a concrete one-move loop. -/
theorem pvs_stop_returns_minus_infty_witness :
    pvsMoveLoop gCap 5 0 0 1 (-100) false false 0 [5] 0 0 (-INFTY) (-10) 10 stStop =
    some (PvsLoopOut.ret (-INFTY), { stStop with clock := stStop.clock + 1, isStop := true }) :=
  pvs_stop_returns_minus_infty gCap 4 0 0 1 (-100) false false 0 5 [] 0 0 (-INFTY)
    (-10) 10 stStop rfl (by decide)

/-- Counterexample for claim C3 as stated: a beta cutoff at
beta = MATE_SCORE - 2, a mate-range magnitude, at ply 5 stores the raw
score MATE_SCORE - 2 into the transposition table, not the ply-adjusted
score + ply = MATE_SCORE + 3. -/
theorem tt_store_no_mate_adjust_counterexample :
    ((PVS gMate 10 0 1 (MATE_SCORE - 3) (MATE_SCORE - 2) stPly5).map
      (fun r => (r.1, r.2.tt 0))) =
      some (MATE_SCORE - 2, some ⟨7, MATE_SCORE - 2, 1, NodeType.CUT_NODE, 0⟩) ∧
    MATE_SCORE - MAX_DEPTH < MATE_SCORE - 2 ∧
    stPly5.ply = 5 ∧
    MATE_SCORE - 2 ≠ (MATE_SCORE - 2) + 5 :=
  ⟨rfl, by decide, rfl, by decide⟩

/-- Claim C3 as amended: no mate-score ply adjustment exists in the search:
whenever the move loop of an uninterrupted PVS exits with a beta cutoff --
in particular when beta has mate-range magnitude above
MATE_SCORE - MAX_DEPTH -- the transposition entry just stored for the
position holds the raw cutoff score beta itself (as a CUT node), and
probeTT later compares that stored score directly, with no inversion. -/
theorem tt_cutoff_stores_raw_beta {P : Type} [DecidableEq P] (g : Game P) (fuel : Nat)
    (b : P) (color : Nat) (depth prevAlpha : Int) (isPVNode isInCheck : Bool)
    (staticEval : Int) (moves : List Move) (movesSearched : Nat) (toHash : Move)
    (score alpha beta : Int) (st : SState P) (v : Int) (st1 : SState P)
    (htime : ∀ n, g.timeout n = false) (hstop : st.isStop = false)
    (hab : alpha < beta) (hmate : MATE_SCORE - MAX_DEPTH < |beta|)
    (h : pvsMoveLoop g fuel b color depth prevAlpha isPVNode isInCheck staticEval
      moves movesSearched toHash score alpha beta st = some (PvsLoopOut.ret v, st1)) :
    v = beta ∧
    ∃ m1, st1.tt b = some ⟨m1, beta, depth, NodeType.CUT_NODE, st1.rootMoveNumber⟩ := by
  have hinv := (pvsBlockInv g htime fuel).2.2 _ _ _ _ _ _ _ _ _ _ _ _ _ _ _ _ hstop hab h
  exact hinv.2

/-- Witness for claim C3 (amended) on the concrete cutoff of gMate. -/
theorem tt_cutoff_stores_raw_beta_witness :
    (MATE_SCORE - 2 : Int) = MATE_SCORE - 2 ∧
    ∃ m1, stMateAfter.tt 0 =
      some ⟨m1, MATE_SCORE - 2, 1, NodeType.CUT_NODE, stMateAfter.rootMoveNumber⟩ :=
  tt_cutoff_stores_raw_beta gMate 8 0 0 1 (MATE_SCORE - 3) false false 0 [7] 0 0
    (-INFTY) (MATE_SCORE - 3) (MATE_SCORE - 2) stPly5 (MATE_SCORE - 2) stMateAfter
    (fun _ => rfl) rfl (by decide) (by decide) rfl

/-- Counterexample for claim C4 as stated: position 0 of gStale is
stalemated (not in check, no pseudo-legal move can be legally played) and
not drawn, yet PVS at depth 1 on the window [-100, -99] futility-prunes the
only move and returns alpha = -100 instead of clamp(0, -100, -99) = -99
(the code comments this: futility pruning may fail low in some stalemate
cases). -/
theorem stalemate_futility_counterexample :
    gStale.isInCheck 0 (gStale.getPlayerToMove 0) = false ∧
    gStale.doPseudoLegalMove = (fun _ _ _ => none) ∧
    gStale.isDraw 0 = false ∧
    ((PVS gStale 10 0 1 (-100) (-99) baseState).map (fun r => r.1)) = some (-100) ∧
    clampSpec 0 (-100) (-99) = -99 ∧
    ((-100 : Int) ≠ -99) :=
  ⟨rfl, rfl, rfl, rfl, by decide, by decide⟩

/-- Claim C4 as amended: PVS on a stalemated position (side to move not in
check, no pseudo-legal move can be legally played) returns
clamp(0, alpha, beta) provided no pruning path bypasses the no-legal-move
detection: depth >= 4 (futility pruning off), no transposition entry for
the position, static evaluation below beta (null-move and reverse-futility
pruning off), and the search uninterrupted. -/
theorem pvs_stalemate_clamp {P : Type} [DecidableEq P] (g : Game P) (fuel : Nat)
    (b : P) (depth alpha beta : Int) (st : SState P)
    (htime : ∀ n, g.timeout n = false) (hstop : st.isStop = false)
    (hdepth : 4 ≤ depth) (hab : alpha < beta)
    (hfuel : (g.generateMoves b NULL_MOVE).length + 2 ≤ fuel)
    (hcheck : g.isInCheck b (g.getPlayerToMove b) = false)
    (hmoves : ∀ m, m ∈ g.generateMoves b NULL_MOVE →
      g.doPseudoLegalMove b m (g.getPlayerToMove b) = none)
    (htt : st.tt b = none)
    (hse : (if g.getPlayerToMove b = WHITE then g.evaluate b else -(g.evaluate b)) < beta) :
    ∃ st1, PVS g fuel b depth alpha beta st = some (clampSpec 0 alpha beta, st1) := by
  cases fuel with
  | zero => omega
  | succ f =>
    by_cases hdraw : g.isDraw b = true
    · refine ⟨st, ?_⟩
      simp only [PVS, clampSpec]
      rw [if_neg (by omega), if_pos hdraw]
    · cases f with
      | zero => omega
      | succ f2 =>
        have hprobe : probeTT g (f2 + 1) b depth alpha beta st =
            some (-INFTY, NULL_MOVE, alpha, st) := by
          simp only [probeTT, htt]
        obtain ⟨stL, hloop⟩ := loopAllIllegal g htime b (g.getPlayerToMove b) depth alpha
          (decide (beta - alpha ≠ 1)) (g.isInCheck b (g.getPlayerToMove b))
          (if g.getPlayerToMove b = WHITE then g.evaluate b else -(g.evaluate b)) hdepth
          (g.generateMoves b NULL_MOVE) (f2 + 1)
          0 NULL_MOVE (-INFTY) alpha beta st
          (by omega) hstop hmoves
        refine ⟨stL, ?_⟩
        simp only [PVS]
        rw [if_neg (by omega), if_neg hdraw, hprobe]
        simp only []
        rw [if_neg (by simp)]
        rw [if_neg (fun hc => absurd hc.2.2.2.2.1 (by omega))]
        simp only []
        rw [if_neg (fun hc => absurd hc.2.2.1 (by omega))]
        rw [if_pos True.intro, hloop]
        simp only []
        rw [hcheck]
        rfl

/-- Witness for claim C4 (amended) on gStale at depth 4. -/
theorem pvs_stalemate_clamp_witness :
    ∃ st1, PVS gStale 10 0 4 (-100) (-99) baseState =
      some (clampSpec 0 (-100) (-99), st1) :=
  pvs_stalemate_clamp gStale 10 0 4 (-100) (-99) baseState
    (fun _ => rfl) rfl (by decide) (by decide) (by decide) rfl
    (fun m hm => rfl) rfl (by decide)

/-- Claim C5: at depth >= 1 on a position the board reports drawn
(fifty-move, repetition and insufficient material are the board's concern),
PVS returns clamp(0, alpha, beta): beta if 0 >= beta, 0 if
alpha < 0 < beta, else alpha -- leaving the search state unchanged. -/
theorem pvs_draw_clamp {P : Type} [DecidableEq P] (g : Game P) (fuel : Nat)
    (b : P) (depth alpha beta : Int) (st : SState P)
    (hdepth : 1 ≤ depth) (hdraw : g.isDraw b = true) (hab : alpha < beta) :
    PVS g (fuel + 1) b depth alpha beta st = some (clampSpec 0 alpha beta, st) := by
  simp only [PVS, clampSpec]
  rw [if_neg (by omega), if_pos hdraw]

/-- Witness for claim C5 at the always-drawn game, window [-3, 5]. -/
theorem pvs_draw_clamp_witness :
    PVS gDraw 1 (0 : Nat) 1 (-3) 5 baseState = some (clampSpec 0 (-3) 5, baseState) :=
  pvs_draw_clamp gDraw 0 0 1 (-3) 5 baseState (by decide) rfl (by decide)

/-- Claim C6: under the null-move preconditions depth >= 3 and
staticEval >= beta, the reduction PVS uses for the null-move child equals
min(depth - 2, base + (staticEval - beta) / PAWN_VALUE) with base 4 if
depth >= 11, else 3 if depth >= 6, else 2 -- and the child depth
depth - 1 - R is always at least 1, so the null-move search never descends
directly into quiescence. -/
theorem nullMoveReduction_spec (depth staticEval beta : Int)
    (hdepth : 3 ≤ depth) (hse : beta ≤ staticEval) :
    nullMoveReduction depth staticEval beta =
      min (depth - 2)
        ((if depth ≥ 11 then 4 else if depth ≥ 6 then 3 else 2) +
          Int.tdiv (staticEval - beta) PAWN_VALUE) ∧
    1 ≤ depth - 1 - nullMoveReduction depth staticEval beta := by
  refine ⟨rfl, ?_⟩
  simp only [nullMoveReduction]
  have hmin := min_le_left (depth - 2)
    ((if depth ≥ 11 then (4 : Int) else if depth ≥ 6 then 3 else 2) +
      Int.tdiv (staticEval - beta) PAWN_VALUE)
  omega

/-- Witness for claim C6 at depth 5, staticEval 10, beta 3. -/
theorem nullMoveReduction_spec_witness :
    nullMoveReduction 5 10 3 =
      min ((5 : Int) - 2) ((if (5 : Int) ≥ 11 then 4 else if (5 : Int) ≥ 6 then 3 else 2) +
        Int.tdiv (10 - 3) PAWN_VALUE) ∧
    1 ≤ (5 : Int) - 1 - nullMoveReduction 5 10 3 :=
  nullMoveReduction_spec 5 10 3 (by decide) (by decide)

/-- Claim C7: an ALL_NODE transposition entry with stored depth >= depth
and stored score <= alpha makes PVS return alpha (at depth >= 1 on a
non-drawn position, on windows above -INFTY, which is wherever the probe
runs); and a PV_NODE entry never produces a score cutoff by itself: when
its hash move cannot be replayed, probeTT reports no cutoff whatever the
stored score and depth -- the entry is used only for its move. -/
theorem tt_allnode_and_pvnode {P : Type} [DecidableEq P] (g : Game P) (fuel : Nat)
    (b : P) (depth alpha beta : Int) (st : SState P) (entry : HashEntry)
    (hentry : st.tt b = some entry) :
    ((entry.nodeType = NodeType.ALL_NODE ∧ depth ≤ entry.depth ∧
      entry.score ≤ alpha ∧ 1 ≤ depth ∧ g.isDraw b = false ∧ -INFTY < alpha) →
      PVS g (fuel + 2) b depth alpha beta st = some (alpha, st)) ∧
    ((entry.nodeType = NodeType.PV_NODE ∧
      g.doHashMove b entry.m (g.getPlayerToMove b) = none) →
      probeTT g (fuel + 1) b depth alpha beta st =
        some (-INFTY, NULL_MOVE, alpha, st)) := by
  constructor
  · rintro ⟨hAll, hd, hs, hdep, hdraw, hinf⟩
    have hp : probeTT g (fuel + 1) b depth alpha beta st =
        some (alpha, NULL_MOVE, alpha, st) := by
      simp only [probeTT, hentry]
      rw [if_pos hAll, if_pos ⟨hd, hs⟩]
    simp only [PVS]
    rw [if_neg (by omega), if_neg (by simp [hdraw]), hp]
    simp only []
    rw [if_pos (by omega)]
  · rintro ⟨hPV, hdo⟩
    simp only [probeTT, hentry]
    rw [if_neg (by simp [hPV]), if_neg (by simp [hPV]), hdo]

/-- Witness for claim C7: an ALL-node cutoff at alpha on stAllEntry, and a
PV entry with huge stored score producing no cutoff on stPvEntry. -/
theorem tt_allnode_and_pvnode_witness :
    PVS baseGame 2 0 2 5 9 stAllEntry = some (5, stAllEntry) ∧
    probeTT baseGame 1 0 2 5 9 stPvEntry = some (-INFTY, NULL_MOVE, 5, stPvEntry) :=
  ⟨(tt_allnode_and_pvnode baseGame 0 0 2 5 9 stAllEntry
      ⟨9, 4, 3, NodeType.ALL_NODE, 0⟩ rfl).1
      ⟨rfl, by decide, by decide, by decide, rfl, by decide⟩,
   (tt_allnode_and_pvnode baseGame 0 0 2 5 9 stPvEntry
      ⟨9, 1000, 5, NodeType.PV_NODE, 0⟩ rfl).2 ⟨rfl, rfl⟩⟩

/-- Claim C8: nullMoveCount never exceeds 2 on any path: a PVS call entered
with nullMoveCount <= 2 and ghost high-water mark <= 2 finishes with the
high-water mark still <= 2 -- the counter stayed <= 2 at every point of the
execution, because the excursion is attempted only when the counter is
below 2, increments it before the recursive call and decrements it on both
exit paths -- and the counter itself is restored to its entry value. -/
theorem nullMoveCount_bounded {P : Type} [DecidableEq P] (g : Game P) (fuel : Nat)
    (b : P) (depth alpha beta : Int) (st : SState P) (v : Int) (st1 : SState P)
    (hnc : st.nullMoveCount ≤ 2) (hhigh : st.nmcHigh ≤ 2)
    (h : PVS g fuel b depth alpha beta st = some (v, st1)) :
    st1.nullMoveCount = st.nullMoveCount ∧ st1.nmcHigh ≤ 2 :=
  (nmcBlockInv g fuel).1 _ _ _ _ _ _ _ hnc hhigh h

/-- Witness for claim C8 at the always-drawn game. -/
theorem nullMoveCount_bounded_witness :
    baseState.nullMoveCount = baseState.nullMoveCount ∧ baseState.nmcHigh ≤ 2 :=
  nullMoveCount_bounded gDraw 1 0 1 0 1 baseState 0 baseState
    (by decide) (by decide) rfl

/-- Claim C9: for parallel move/score lists (a move list never contains
NULL_MOVE), nextMove returns NULL_MOVE exactly when the index is past the
end; otherwise it returns the move at some position bi >= index whose score
is maximal among positions index..size-1, swaps that move and its score
into position index, and afterwards the score at position index bounds
every later score -- so successive calls with index 0, 1, 2, ... yield the
moves in descending score order (partial selection sort). -/
theorem nextMove_spec (moves : List Move) (scores : List Int) (index : Nat)
    (hlen : moves.length = scores.length) (hnn : NULL_MOVE ∉ moves) :
    ((nextMove moves scores index).1 = NULL_MOVE ↔ moves.length ≤ index) ∧
    (index < moves.length →
      ∃ bi, index ≤ bi ∧ bi < moves.length ∧
        (nextMove moves scores index).2.1 = listSwap moves NULL_MOVE bi index ∧
        (nextMove moves scores index).2.2 = listSwap scores 0 bi index ∧
        (nextMove moves scores index).1 = moves.getD bi NULL_MOVE ∧
        (∀ j, index ≤ j → j < scores.length → scores.getD j 0 ≤ scores.getD bi 0) ∧
        (∀ j, index ≤ j → j < scores.length →
          (nextMove moves scores index).2.2.getD j 0 ≤
            (nextMove moves scores index).2.2.getD index 0)) := by
  have hdropD : ∀ (l : List Int) (n k : Nat), (l.drop n).getD k 0 = l.getD (n + k) 0 := by
    intro l n k
    simp [List.getD_eq_getElem?_getD, List.getElem?_drop]
  by_cases hidx : index ≥ moves.length
  · constructor
    · simp only [nextMove]
      rw [if_pos hidx]
      simpa using hidx
    · intro hc
      omega
  · have hltm : index < moves.length := by omega
    have hlts : index < scores.length := by omega
    obtain ⟨B, hBdef⟩ : ∃ B,
        argmaxFrom (scores.drop (index + 1)) index (scores.getD index 0) (index + 1) = B :=
      ⟨_, rfl⟩
    have hnm : nextMove moves scores index =
        ((listSwap moves NULL_MOVE B index).getD index NULL_MOVE,
          listSwap moves NULL_MOVE B index, listSwap scores 0 B index) := by
      simp only [nextMove]
      rw [if_neg hidx, hBdef]
    have hB : index ≤ B ∧ B < scores.length ∧
        (∀ j, index ≤ j → j < scores.length → scores.getD j 0 ≤ scores.getD B 0) := by
      rcases argmaxFrom_spec (scores.drop (index + 1)) index (scores.getD index 0)
          (index + 1) with ⟨heq, hall⟩ | ⟨k, hk, heq, hklt, hall⟩
      · have hBi : B = index := by rw [← hBdef, heq]
        rw [hBi]
        refine ⟨le_refl _, hlts, ?_⟩
        intro j hj1 hj2
        rcases Nat.eq_or_lt_of_le hj1 with hji | hji
        · rw [← hji]
        · have hk1 : j - index - 1 < (scores.drop (index + 1)).length := by
            rw [List.length_drop]
            omega
          have := hall (j - index - 1) hk1
          rw [hdropD] at this
          have hj3 : index + 1 + (j - index - 1) = j := by omega
          rw [hj3] at this
          exact this
      · have hBi : B = index + 1 + k := by rw [← hBdef, heq]
        have hk2 : k < scores.length - (index + 1) := by
          rw [List.length_drop] at hk
          exact hk
        have hgB : scores.getD B 0 = (scores.drop (index + 1)).getD k 0 := by
          rw [hdropD, hBi]
        refine ⟨by omega, by omega, ?_⟩
        intro j hj1 hj2
        rcases Nat.eq_or_lt_of_le hj1 with hji | hji
        · rw [← hji, hgB]
          omega
        · have hk1 : j - index - 1 < (scores.drop (index + 1)).length := by
            rw [List.length_drop]
            omega
          have := hall (j - index - 1) hk1
          rw [hdropD] at this
          have hj3 : index + 1 + (j - index - 1) = j := by omega
          rw [hj3] at this
          rw [hgB]
          exact this
    obtain ⟨hB1, hB2, hB3⟩ := hB
    have hlenset : ∀ (l : List Move) (i : Nat) (a : Move), (l.set i a).length = l.length := by
      intro l i a
      simp
    -- the swapped move list puts moves[B] at position index
    have hmoves1 : (listSwap moves NULL_MOVE B index).getD index NULL_MOVE =
        moves.getD B NULL_MOVE := by
      simp only [listSwap]
      have hlt2 : index < (moves.set B (moves.getD index NULL_MOVE)).length := by
        simp [hltm]
      rw [List.getD_eq_getElem?_getD,
        List.getElem?_set_eq_of_lt (moves.getD B NULL_MOVE) hlt2, Option.getD_some]
    have hmem : moves.getD B NULL_MOVE ∈ moves := by
      have hB2m : B < moves.length := by omega
      rw [List.getD_eq_getElem?_getD, List.getElem?_eq_getElem hB2m]
      exact List.getElem_mem hB2m
    constructor
    · rw [hnm]
      simp only [hmoves1]
      constructor
      · intro hnull
        exact absurd (hnull ▸ hmem) hnn
      · intro hc
        omega
    · intro hlt3
      refine ⟨B, hB1, by omega, ?_, ?_, ?_, hB3, ?_⟩
      · rw [hnm]
      · rw [hnm]
      · rw [hnm]
        exact hmoves1
      · intro j hj1 hj2
        rw [hnm]
        simp only [listSwap]
        have hscores1 : ((scores.set B (scores.getD index 0)).set index
            (scores.getD B 0)).getD index 0 = scores.getD B 0 := by
          have hlt2 : index < (scores.set B (scores.getD index 0)).length := by
            simp [hlts]
          rw [List.getD_eq_getElem?_getD,
            List.getElem?_set_eq_of_lt (scores.getD B 0) hlt2, Option.getD_some]
        rw [hscores1]
        rcases Nat.eq_or_lt_of_le hj1 with hji | hji
        · rw [← hji, hscores1]
        · have hjne : index ≠ j := by omega
          have h1 : ((scores.set B (scores.getD index 0)).set index
              (scores.getD B 0)).getD j 0 =
              (scores.set B (scores.getD index 0)).getD j 0 := by
            simp [List.getD_eq_getElem?_getD, List.getElem?_set_ne hjne]
          rw [h1]
          by_cases hjB : B = j
          · have h2 : (scores.set B (scores.getD index 0)).getD j 0 =
                scores.getD index 0 := by
              subst hjB
              have hlt4 : B < scores.length := hB2
              simp [List.getD_eq_getElem?_getD, List.getElem?_set_eq_of_lt _ hlt4]
            rw [h2]
            exact hB3 index (le_refl _) hlts
          · have h2 : (scores.set B (scores.getD index 0)).getD j 0 =
                scores.getD j 0 := by
              simp [List.getD_eq_getElem?_getD, List.getElem?_set_ne hjB]
            rw [h2]
            exact hB3 j (by omega) hj2

/-- Witness for claim C9 on the lists [5, 6] and [1, 9] at index 0. -/
theorem nextMove_spec_witness :
    ((nextMove [5, 6] [1, 9] 0).1 = NULL_MOVE ↔ ([5, 6] : List Move).length ≤ 0) ∧
    (0 < ([5, 6] : List Move).length →
      ∃ bi, 0 ≤ bi ∧ bi < ([5, 6] : List Move).length ∧
        (nextMove [5, 6] [1, 9] 0).2.1 = listSwap [5, 6] NULL_MOVE bi 0 ∧
        (nextMove [5, 6] [1, 9] 0).2.2 = listSwap [1, 9] 0 bi 0 ∧
        (nextMove [5, 6] [1, 9] 0).1 = ([5, 6] : List Move).getD bi NULL_MOVE ∧
        (∀ j, 0 ≤ j → j < ([1, 9] : List Int).length →
          ([1, 9] : List Int).getD j 0 ≤ ([1, 9] : List Int).getD bi 0) ∧
        (∀ j, 0 ≤ j → j < ([1, 9] : List Int).length →
          (nextMove [5, 6] [1, 9] 0).2.2.getD j 0 ≤
            (nextMove [5, 6] [1, 9] 0).2.2.getD 0 0)) :=
  nextMove_spec [5, 6] [1, 9] 0 rfl (by decide)

/-- Claim C10: the two killer slots at a ply never hold the same non-null
move: the quiet beta-cutoff update shifts slot 0 into slot 1 only when the
new killer differs from slot 0, so every killer update with a non-null move
preserves the invariant that the slots differ unless both are NULL_MOVE. -/
theorem killerUpdate_distinct (m : Move) (ks : Move × Move)
    (hm : m ≠ NULL_MOVE)
    (hks : ks.1 ≠ ks.2 ∨ (ks.1 = NULL_MOVE ∧ ks.2 = NULL_MOVE)) :
    (killerUpdate m ks).1 ≠ (killerUpdate m ks).2 ∨
      ((killerUpdate m ks).1 = NULL_MOVE ∧ (killerUpdate m ks).2 = NULL_MOVE) := by
  simp only [killerUpdate]
  split
  · rename_i hne
    exact Or.inl hne
  · exact hks

/-- Witness for claim C10 shifting move 3 into empty killer slots. -/
theorem killerUpdate_distinct_witness :
    (killerUpdate 3 (NULL_MOVE, NULL_MOVE)).1 ≠ (killerUpdate 3 (NULL_MOVE, NULL_MOVE)).2 ∨
      ((killerUpdate 3 (NULL_MOVE, NULL_MOVE)).1 = NULL_MOVE ∧
        (killerUpdate 3 (NULL_MOVE, NULL_MOVE)).2 = NULL_MOVE) :=
  killerUpdate_distinct 3 (NULL_MOVE, NULL_MOVE) (by decide) (by decide)

end LaserSearch
